import Mathlib

/-!
Verification development for the `ControlledGate` core of
`cirq-core/cirq/ops/controlled_gate.py`.

The gate entity, its constructor (`__init__`), the decomposition engine
(`_decompose_with_context_`), application (`on`), exponentiation
(`__pow__`), parameter resolution (`_resolve_parameters_`) and the
serialization payload (`_json_dict_`) are embedded from the source file.
The control-value model (`cirq/ops/control_values.py`) is not among the
provided sources; its operations are modelled from the spec where marked.
External protocol queries (`sub_gate.controlled(...)`,
`decompose_once_with_qubits`, the multi-controlled-rotation synthesis
primitive, numeric angle extraction) are passed in as oracle parameters.
-/

set_option autoImplicit false

namespace CirqControlled

/-- Modelled from the spec: the Control-Value Model of `control_values.py`
(not among the provided sources).  A closed tagged-variant type with the
two variants the spec describes: a per-qudit "product of accepted-value
sets" and a "sum of joint-assignment conjunctions". -/
inductive ACV where
  | ProductOfSums (sums : List (List Nat))
  | SumOfProducts (conjunctions : List (List Nat))
  deriving DecidableEq, Repr

/-- All assignments in the Cartesian product of the per-qudit accepted
sets, first qudit varying slowest (the order `itertools.product` uses). -/
def cartesian_product : List (List Nat) → List (List Nat)
  | [] => [[]]
  | s :: rest => (s.map (fun v => (cartesian_product rest).map (v :: ·))).flatten

namespace ACV

/-- Modelled from the spec: `num_qubits()` of the control-value object
equals the declared control count (each conjunction of a Sum-of-Products
is a full-length tuple over all control qudits). -/
def num_qubits : ACV → Nat
  | .ProductOfSums sums => sums.length
  | .SumOfProducts conjs => (conjs.headD []).length

/-- Modelled from the spec: `validate(shape)` fails iff some accepted
value for qudit `i` is not in `[0, shape[i])`. -/
def validate : ACV → List Nat → Bool
  | .ProductOfSums sums, shape => (sums.zip shape).all fun p => p.1.all (· < p.2)
  | .SumOfProducts conjs, shape => conjs.all fun c => (c.zip shape).all fun p => p.1 < p.2

/-- The list of joint-assignment conjunctions an `ACV` denotes. -/
def conjunctions_of : ACV → List (List Nat)
  | .ProductOfSums sums => cartesian_product sums
  | .SumOfProducts conjs => conjs

/-- Modelled from the spec: combination `A & B` over disjoint qudit
ranges, "componentwise/by-concatenation", preserving each operand's own
per-qudit sets/conjunctions and widening the qudit index space. -/
def and : ACV → ACV → ACV
  | .ProductOfSums a, .ProductOfSums b => .ProductOfSums (a ++ b)
  | x, y =>
    .SumOfProducts ((conjunctions_of x).map (fun p => (conjunctions_of y).map (p ++ ·))).flatten

/-- Modelled from the spec: `expand()` enumerates the Cartesian product
of accepted sets for Product-of-Sums, or the deduplicated union of
per-conjunction assignments for Sum-of-Products. -/
def expand : ACV → List (List Nat)
  | .ProductOfSums sums => cartesian_product sums
  | .SumOfProducts conjs => conjs.eraseDups

end ACV

/-- The capability surface an atomic (non-controlled) gate answers
through the `protocols` module. -/
structure GateProps where
  is_measurement : Bool
  /-- `protocols.has_mixture`: true for unitary or mixture-capable gates
  (`has_mixture` falls back to `has_unitary`). -/
  has_mixture : Bool
  is_parameterized : Bool
  has_unitary : Bool
  qid_shape : List Nat
  deriving DecidableEq, Repr

/-- A gate: either an atomic gate (identified by a tag, answering the
protocol queries through its `GateProps`) or a `ControlledGate` with the
three fields set by `__init__` (lines 108-121 of the source). -/
inductive Gate where
  | atomic (tag : Nat) (props : GateProps)
  | ControlledGate (sub_gate : Gate) (control_values : ACV) (control_qid_shape : List Nat)
  deriving DecidableEq, Repr

def Gate.isControlled : Gate → Bool
  | .ControlledGate .. => true
  | .atomic .. => false

/-- The innermost non-controlled gate under a stack of wrappers. -/
def innermost : Gate → Gate
  | .ControlledGate s _ _ => innermost s
  | g => g

/-- `protocols.is_measurement`: a `ControlledGate` exposes no measurement
protocol (and its constructor forbids measurement sub-gates). -/
def is_measurement : Gate → Bool
  | .atomic _ p => p.is_measurement
  | .ControlledGate .. => false

/-- `protocols.has_mixture`; `ControlledGate._has_mixture_` (line 224)
delegates to the sub-gate. -/
def has_mixture : Gate → Bool
  | .atomic _ p => p.has_mixture
  | .ControlledGate sub _ _ => has_mixture sub

/-- `protocols.is_parameterized`; `ControlledGate._is_parameterized_`
(line 244) delegates to the sub-gate. -/
def is_parameterized : Gate → Bool
  | .atomic _ p => p.is_parameterized
  | .ControlledGate sub _ _ => is_parameterized sub

/-- `protocols.has_unitary`; `ControlledGate._has_unitary_` (line 214)
delegates to the sub-gate. -/
def has_unitary : Gate → Bool
  | .atomic _ p => p.has_unitary
  | .ControlledGate sub _ _ => has_unitary sub

/-- `protocols.qid_shape`; `ControlledGate._qid_shape_` (line 138) is the
control shape followed by the sub-gate's shape. -/
def qid_shape : Gate → List Nat
  | .atomic _ p => p.qid_shape
  | .ControlledGate sub _ sh => sh ++ qid_shape sub

/-- `_validate_sub_object` (lines 318-322). -/
def _validate_sub_object (sub : Gate) : Except String Unit :=
  if is_measurement sub then .error "Cannot control measurement"
  else if !has_mixture sub && !is_parameterized sub then
    .error "Cannot control channel with non-unitary operators"
  else .ok ()

/-- The `control_values` argument of `ControlledGate.__init__`: omitted,
a raw sequence of per-qudit values / value collections, or an
`AbstractControlValues` object. -/
inductive CVArg where
  | omitted
  | raw (values : List (List Nat))
  | abstract (v : ACV)
  deriving DecidableEq, Repr

/-- Lines 79-81: a `SumOfProducts` with a single conjunction is replaced
by that conjunction, a raw sequence of single values. -/
def simplify_single_sum_of_products : CVArg → CVArg
  | .abstract (.SumOfProducts [c]) => .raw (c.map fun v => [v])
  | cv => cv

/-- Lines 83-93: `num_controls` inference (applied after the
single-`SumOfProducts` simplification). -/
def resolved_num_controls (num_controls : Option Nat) (control_values : CVArg)
    (control_qid_shape : Option (List Nat)) : Nat :=
  match num_controls with
  | some n => n
  | none =>
    match control_values with
    | .abstract v => v.num_qubits
    | .raw vs => vs.length
    | .omitted =>
      match control_qid_shape with
      | some s => s.length
      | none => 1

/-- Lines 94-99: default control values, and conversion of a raw
sequence to a `ProductOfSums`. -/
def resolved_control_values : CVArg → Nat → ACV
  | .omitted, nc => .ProductOfSums (List.replicate nc [1])
  | .raw vs, _ => .ProductOfSums vs
  | .abstract v, _ => v

/-- `ControlledGate.__init__` (lines 48-121): validation of the
sub-gate, simplification and defaulting of the control arguments, the
three consistency checks, and the flattening of a nested
`ControlledGate` sub-gate. -/
def controlledGateInit (sub_gate : Gate) (num_controls : Option Nat)
    (control_values : CVArg) (control_qid_shape : Option (List Nat)) : Except String Gate :=
  if is_measurement sub_gate then .error "Cannot control measurement"
  else if !has_mixture sub_gate && !is_parameterized sub_gate then
    .error "Cannot control channel with non-unitary operators"
  else
    let cvArg := simplify_single_sum_of_products control_values
    let nc := resolved_num_controls num_controls cvArg control_qid_shape
    let cvals := resolved_control_values cvArg nc
    if nc ≠ cvals.num_qubits then .error "cirq.num_qubits(control_values) != num_controls"
    else
      let shape := control_qid_shape.getD (List.replicate nc 2)
      if nc ≠ shape.length then .error "len(control_qid_shape) != num_controls"
      else if !cvals.validate shape then
        .error "Control values out of range for control qid shape"
      else
        match sub_gate with
        | .ControlledGate inner_sub inner_values inner_shape =>
          .ok (.ControlledGate inner_sub (cvals.and inner_values) (shape ++ inner_shape))
        | g => .ok (.ControlledGate g cvals shape)

/-- A qudit: an identity and a dimension (`cirq.Qid`). -/
structure Qid where
  id : Nat
  dimension : Nat
  deriving DecidableEq, Repr

/-- The operations the decomposition engine can emit.  `MCR` stands for
the operation list returned by the external
`decompose_multi_controlled_rotation(unitary, controls, target)`
synthesis primitive, recording the arguments it was invoked with
(`unitary_tag` identifies the 2x2 matrix `protocols.unitary(sub_gate)`).
`controlled_by` records `op.controlled_by(*controls,
control_values=...)` from branch 2. -/
inductive Operation where
  | X (q : Qid)
  | DiagonalGateOp (diag_angles_radians : List ℚ) (qubits : List Qid)
  | MCR (unitary_tag : Nat) (controls : List Qid) (target : Qid)
  | GateOp (gate : Gate) (qubits : List Qid)
  | controlled_by (op : Operation) (controls : List Qid) (control_values : ACV)
  deriving DecidableEq, Repr

/-- The row-major (C-order) flat index of a multi-index `idx` into an
array of shape `shape`, as `numpy.ndarray.flatten` linearizes it. -/
def flat_index (shape idx : List Nat) : Nat :=
  (shape.zip idx).foldl (fun acc p => acc * p.1 + p.2) 0

/-- Lines 175-178: `rads = np.zeros(shape=control_qid_shape)`, then
`rads[hot] = angle` for each `hot` in `control_values.expand()`, then
`rads.flatten()`. -/
def diag_angles (shape : List Nat) (hots : List (List Nat)) (angle : ℚ) : List ℚ :=
  (List.range (shape.foldl (· * ·) 1)).map fun j =>
    if hots.any (fun hot => flat_index shape hot == j) then angle else 0

/-- Lines 180-190: the multi-controlled single-qubit case.  `sums` is the
`ProductOfSums` iterated as per-qubit accepted-value lists, `nc` is
`num_controls`, `uTag` identifies `protocols.unitary(sub_gate)`.
Qubits whose accepted set is exactly `{0}` get an `X` appended to
`invert_ops`; qubits whose accepted set is `{0, 1}` are removed from
`control_qubits`; the result is
`invert_ops + decomposed_ops + invert_ops`. -/
def case2_ops (sums : List (List Nat)) (qubits : List Qid) (nc : Nat) (uTag : Nat) :
    List Operation :=
  let pairs := sums.zip (qubits.take nc)
  let invert_ops := pairs.filterMap fun p =>
    if p.1.toFinset = ({0} : Finset Nat) then some (Operation.X p.2) else none
  let control_qubits := pairs.foldl
    (fun cq p => if p.1.toFinset = ({0} : Finset Nat) then cq
      else if p.1.toFinset = ({0, 1} : Finset Nat) then cq.erase p.2 else cq)
    (qubits.take nc)
  invert_ops ++ [Operation.MCR uTag control_qubits (qubits.getLastD ⟨0, 0⟩)] ++ invert_ops

/-- `ControlledGate._decompose_with_context_` (lines 141-193), for the
entity `ControlledGate sub cvs shape`.  External collaborators are
passed as oracles: `controlled_oracle` is `sub_gate.controlled(...)`
(line 145), `sub_decompose` is `protocols.decompose_once_with_qubits`
returning `none` for `NotImplemented` (line 153), `angle` is
`np.angle(protocols.unitary(sub_gate)[0, 0])` and `uTag` identifies
`protocols.unitary(sub_gate)`.  Result `none` is `NotImplemented`. -/
def _decompose_with_context_
    (controlled_oracle : Gate → Nat → ACV → List Nat → Gate)
    (sub_decompose : Gate → List Qid → Option (List Operation))
    (angle : ℚ) (uTag : Nat)
    (sub : Gate) (cvs : ACV) (shape : List Nat) (qubits : List Qid) :
    Option (List Operation) :=
  let g := Gate.ControlledGate sub cvs shape
  let nc := shape.length
  let controlled_sub_gate := controlled_oracle sub nc cvs shape
  if g ≠ controlled_sub_gate then some [Operation.GateOp controlled_sub_gate qubits]
  else
    match sub_decompose sub (qubits.drop nc) with
    | some ops =>
      some (ops.map fun op => Operation.controlled_by op (qubits.take nc) cvs)
    | none =>
      if has_unitary sub && qubits.all (fun q => q.dimension == 2) then
        if (qid_shape sub).length == 0 then
          some [Operation.DiagonalGateOp (diag_angles shape cvs.expand angle) qubits]
        else if (qid_shape sub).length == 1 then
          match cvs with
          | .ProductOfSums sums => some (case2_ops sums qubits nc uTag)
          | _ => none
        else none
      else none

/-- The value returned by `ControlledGate.on` (lines 195-203): a
`ControlledOperation` binding the first `num_controls` qubits as
controls and the rest to the sub-gate, with the gate's control values. -/
structure ControlledOperation where
  controls : List Qid
  sub_operation : Gate × List Qid
  control_values : ACV
  deriving DecidableEq, Repr

/-- Modelled from the spec: `raw_types.Gate.validate_args` is not among
the provided sources; per the spec, application "requires ... exactly
`num_controls + qudits(sub_gate)` qudits" of valid dimensions. -/
def validate_args (g : Gate) (qubits : List Qid) : Bool :=
  qubits.length == (qid_shape g).length &&
    (qubits.zip (qid_shape g)).all fun p => p.1.dimension == p.2

/-- `ControlledGate.on` (lines 195-203). -/
def controlled_gate_on (sub : Gate) (cvs : ACV) (shape : List Nat) (qubits : List Qid) :
    Except String ControlledOperation :=
  if qubits.length = 0 then .error "Applied a gate to an empty set of qubits."
  else if !validate_args (.ControlledGate sub cvs shape) qubits then
    .error "Wrong number or dimension of qubits for gate."
  else
    .ok ⟨qubits.take shape.length, (sub, qubits.drop shape.length), cvs⟩

/-- `ControlledGate.__pow__` (lines 233-242) for the entity
`ControlledGate sub cvs shape`: `pow_sub` is `protocols.pow(sub_gate,
exponent, NotImplemented)` with `none` for `NotImplemented`, which is
propagated; otherwise the constructor is re-run on the exponentiated
sub-gate with the same `num_controls`, `control_values` and
`control_qid_shape`. -/
def controlled_gate_pow (pow_sub : Gate → Int → Option Gate)
    (sub : Gate) (cvs : ACV) (shape : List Nat) (exponent : Int) :
    Option (Except String Gate) :=
  match pow_sub sub exponent with
  | none => none
  | some new_sub_gate =>
    some (controlledGateInit new_sub_gate (some shape.length) (.abstract cvs) (some shape))

/-- `ControlledGate._resolve_parameters_` (lines 250-257): the resolver
is applied to the sub-gate and the constructor re-run with the same
`num_controls`, `control_values` and `control_qid_shape`. -/
def controlled_gate_resolve (resolve_sub : Gate → Gate)
    (sub : Gate) (cvs : ACV) (shape : List Nat) : Except String Gate :=
  controlledGateInit (resolve_sub sub) (some shape.length) (.abstract cvs) (some shape)

/-- `ControlledGate._json_dict_` (lines 310-315): exactly the three
structural fields `control_values`, `control_qid_shape`, `sub_gate`. -/
def _json_dict_ : Gate → Option (ACV × List Nat × Gate)
  | .ControlledGate s v sh => some (v, sh, s)
  | .atomic .. => none

/-- The `num_controls` value `__init__` works with, after the
single-`SumOfProducts` simplification. -/
def init_num_controls (num_controls : Option Nat) (control_values : CVArg)
    (control_qid_shape : Option (List Nat)) : Nat :=
  resolved_num_controls num_controls (simplify_single_sum_of_products control_values)
    control_qid_shape

/-- The control-value object `__init__` checks and stores (before
flattening). -/
def init_control_values (num_controls : Option Nat) (control_values : CVArg)
    (control_qid_shape : Option (List Nat)) : ACV :=
  resolved_control_values (simplify_single_sum_of_products control_values)
    (init_num_controls num_controls control_values control_qid_shape)

/-- The control-qid-shape `__init__` checks and stores (before
flattening). -/
def init_control_qid_shape (num_controls : Option Nat) (control_values : CVArg)
    (control_qid_shape : Option (List Nat)) : List Nat :=
  control_qid_shape.getD
    (List.replicate (init_num_controls num_controls control_values control_qid_shape) 2)

/-- Lines 115-121: the value `__init__` finally stores — a nested
`ControlledGate` sub-gate is absorbed. -/
def flatten_result : Gate → ACV → List Nat → Gate
  | .ControlledGate inner_sub inner_values inner_shape, cvals, shape =>
    .ControlledGate inner_sub (cvals.and inner_values) (shape ++ inner_shape)
  | s, cvals, shape => .ControlledGate s cvals shape

/-- The `invert_ops` list built in lines 181-184: one `X` per control
qudit whose accepted set is exactly `{0}`. -/
def case2_invert_ops (sums : List (List Nat)) (controls : List Qid) : List Operation :=
  (sums.zip controls).filterMap fun p =>
    if p.1.toFinset = ({0} : Finset Nat) then some (Operation.X p.2) else none

/-- The effective control list of lines 181-186: the control qudits
whose accepted set is not the full domain `{0, 1}`. -/
def case2_control_qubits (sums : List (List Nat)) (controls : List Qid) : List Qid :=
  (sums.zip controls).filterMap fun p =>
    if p.1.toFinset = ({0, 1} : Finset Nat) then none else some p.2

/-- A sample non-parameterized unitary 0-qubit atomic gate (a pure
global phase). -/
def phase_gate : Gate := .atomic 0 ⟨false, true, false, true, []⟩

/-- A sample non-parameterized unitary single-qubit atomic gate. -/
def unitary1_gate : Gate := .atomic 1 ⟨false, true, false, true, [2]⟩

end CirqControlled

namespace CirqControlled

theorem simplify_abstract_of_not_single (v : ACV) (hv : ∀ c, v ≠ .SumOfProducts [c]) :
    simplify_single_sum_of_products (.abstract v) = .abstract v := by
  rcases v with s | cs
  · rfl
  · rcases cs with _ | ⟨c, _ | ⟨d, rest⟩⟩
    · rfl
    · exact absurd rfl (hv c)
    · rfl

set_option maxRecDepth 8192 in
theorem controlledGateInit_ok_iff (sub : Gate) (ncArg : Option Nat) (cvArg : CVArg)
    (shapeArg : Option (List Nat)) (g : Gate) :
    controlledGateInit sub ncArg cvArg shapeArg = .ok g ↔
      (is_measurement sub = false ∧
       (!has_mixture sub && !is_parameterized sub) = false ∧
       init_num_controls ncArg cvArg shapeArg =
         (init_control_values ncArg cvArg shapeArg).num_qubits ∧
       init_num_controls ncArg cvArg shapeArg =
         (init_control_qid_shape ncArg cvArg shapeArg).length ∧
       (init_control_values ncArg cvArg shapeArg).validate
         (init_control_qid_shape ncArg cvArg shapeArg) = true ∧
       g = flatten_result sub (init_control_values ncArg cvArg shapeArg)
         (init_control_qid_shape ncArg cvArg shapeArg)) := by
  simp only [controlledGateInit, init_num_controls, init_control_values,
    init_control_qid_shape]
  by_cases h1 : is_measurement sub = true
  · simp [h1]
  · rw [if_neg h1]
    by_cases h2 : (!has_mixture sub && !is_parameterized sub) = true
    · simp [h2]
    · rw [if_neg h2]
      by_cases h3 : resolved_num_controls ncArg (simplify_single_sum_of_products cvArg)
          shapeArg =
          (resolved_control_values (simplify_single_sum_of_products cvArg)
            (resolved_num_controls ncArg (simplify_single_sum_of_products cvArg)
              shapeArg)).num_qubits
      · rw [if_neg (not_not_intro h3)]
        by_cases h4 : resolved_num_controls ncArg (simplify_single_sum_of_products cvArg)
            shapeArg =
            (shapeArg.getD (List.replicate (resolved_num_controls ncArg
              (simplify_single_sum_of_products cvArg) shapeArg) 2)).length
        · rw [if_neg (not_not_intro h4)]
          by_cases h5 : (resolved_control_values (simplify_single_sum_of_products cvArg)
              (resolved_num_controls ncArg (simplify_single_sum_of_products cvArg)
                shapeArg)).validate
              (shapeArg.getD (List.replicate (resolved_num_controls ncArg
                (simplify_single_sum_of_products cvArg) shapeArg) 2)) = true
          · rw [if_neg (by simp [h5])]
            simp only [Bool.not_eq_true] at h1 h2
            rcases sub with ⟨t, p⟩ | ⟨is, iv, ish⟩ <;>
              exact ⟨fun h => ⟨h1, h2, h3, h4, h5, (Except.ok.inj h).symm⟩,
                fun ⟨_, _, _, _, _, hg⟩ => by subst hg; rfl⟩
          · simp only [Bool.not_eq_true] at h5
            rw [if_pos (by simp [h5])]
            simp [h5]
        · rw [if_pos h4]
          simp [h4]
      · rw [if_pos h3]
        simp [h3]


theorem init_control_values_abstract (ncArg : Option Nat) (v : ACV)
    (shapeArg : Option (List Nat)) (hv : ∀ c, v ≠ .SumOfProducts [c]) :
    init_control_values ncArg (.abstract v) shapeArg = v := by
  simp [init_control_values, simplify_abstract_of_not_single v hv, resolved_control_values]

theorem init_num_controls_abstract (v : ACV) (shapeArg : Option (List Nat))
    (hv : ∀ c, v ≠ .SumOfProducts [c]) :
    init_num_controls none (.abstract v) shapeArg = v.num_qubits := by
  simp [init_num_controls, simplify_abstract_of_not_single v hv, resolved_num_controls]

/-- C1: for every gate that is itself a `ControlledGate` (inner controls
shape `c1`, values `v1`) and every valid outer control spec (shape `c2`,
values `v2`), construction yields a single-level entity whose `sub_gate`
is the innermost sub-gate, whose `control_qid_shape` is `c2 ++ c1` and
whose `control_values` is the combination `v2 & v1`. -/
theorem claim_C1_flattening (s : Gate) (v1 v2 : ACV) (c1 c2 : List Nat)
    (ncArg : Option Nat) (h : Gate)
    (hs : s.isControlled = false)
    (hv2 : ∀ c, v2 ≠ ACV.SumOfProducts [c])
    (hok : controlledGateInit (.ControlledGate s v1 c1) ncArg (.abstract v2) (some c2) =
      .ok h) :
    h = .ControlledGate (innermost (.ControlledGate s v1 c1)) (v2.and v1) (c2 ++ c1) := by
  have hcv : init_control_values ncArg (.abstract v2) (some c2) = v2 :=
    init_control_values_abstract ncArg v2 (some c2) hv2
  obtain ⟨-, -, -, -, -, hg⟩ := (controlledGateInit_ok_iff _ _ _ _ _).mp hok
  rw [hg, hcv]
  have hin : innermost (Gate.ControlledGate s v1 c1) = s := by
    rcases s with _ | _
    · rfl
    · simp [Gate.isControlled] at hs
  rw [hin]
  rfl

theorem claim_C1_flattening_witness :
    Gate.ControlledGate phase_gate (.ProductOfSums [[0], [1]]) [2, 2] =
      .ControlledGate (innermost (.ControlledGate phase_gate (.ProductOfSums [[1]]) [2]))
        ((ACV.ProductOfSums [[0]]).and (.ProductOfSums [[1]])) ([2] ++ [2]) :=
  claim_C1_flattening phase_gate (.ProductOfSums [[1]]) (.ProductOfSums [[0]]) [2] [2]
    none _ (by decide) (fun c hc => ACV.noConfusion hc) rfl

/-- C3: construction fails with a validation error exactly when the
sub-gate is a measurement; or it is neither unitary/mixture-capable nor
parameterized; or the declared/inferred `num_controls` differs from the
qudit count of the control values; or the length of the control qid
shape differs from `num_controls`; or some control value is out of range
for its qudit dimension.  Otherwise construction succeeds. -/
theorem claim_C3_validation_errors (sub : Gate) (ncArg : Option Nat) (cvArg : CVArg)
    (shapeArg : Option (List Nat)) :
    (∃ e, controlledGateInit sub ncArg cvArg shapeArg = .error e) ↔
      (is_measurement sub = true ∨
       (has_mixture sub = false ∧ is_parameterized sub = false) ∨
       init_num_controls ncArg cvArg shapeArg ≠
         (init_control_values ncArg cvArg shapeArg).num_qubits ∨
       init_num_controls ncArg cvArg shapeArg ≠
         (init_control_qid_shape ncArg cvArg shapeArg).length ∨
       (init_control_values ncArg cvArg shapeArg).validate
         (init_control_qid_shape ncArg cvArg shapeArg) = false) := by
  constructor
  · rintro ⟨e, he⟩
    by_contra hcon
    rw [not_or, not_or, not_or, not_or] at hcon
    obtain ⟨n1, n2, n3, n4, n5⟩ := hcon
    have hok := (controlledGateInit_ok_iff sub ncArg cvArg shapeArg
        (flatten_result sub (init_control_values ncArg cvArg shapeArg)
          (init_control_qid_shape ncArg cvArg shapeArg))).mpr
      ⟨by simpa using n1,
       by cases hhm : has_mixture sub <;> cases hip : is_parameterized sub <;> simp_all,
       not_not.mp n3, not_not.mp n4, by simpa using n5, rfl⟩
    rw [hok] at he
    exact Except.noConfusion he
  · intro hcond
    cases hres : controlledGateInit sub ncArg cvArg shapeArg with
    | error e => exact ⟨e, rfl⟩
    | ok g =>
      obtain ⟨m1, m2, m3, m4, m5, -⟩ := (controlledGateInit_ok_iff _ _ _ _ g).mp hres
      rcases hcond with hc | hc | hc | hc | hc
      · rw [m1] at hc; exact Bool.noConfusion hc
      · rcases hc with ⟨ha, hb⟩; rw [ha, hb] at m2; simp at m2
      · exact absurd m3 hc
      · exact absurd m4 hc
      · rw [m5] at hc; exact Bool.noConfusion hc

theorem init_num_controls_none (cvArg : CVArg) (shapeArg : Option (List Nat)) :
    init_num_controls none cvArg shapeArg =
      match cvArg, shapeArg with
      | .omitted, some l => l.length
      | .omitted, none => 1
      | .raw vs, _ => vs.length
      | .abstract v, _ => v.num_qubits := by
  rcases cvArg with _ | vs | v
  · rcases shapeArg with _ | l <;> rfl
  · rfl
  · rcases v with sums | cs
    · rfl
    · rcases cs with _ | ⟨c, _ | ⟨d, rest⟩⟩
      · rfl
      · simp [init_num_controls, resolved_num_controls, simplify_single_sum_of_products,
          ACV.num_qubits]
      · rfl

/-- C7: with `control_values` omitted every control accepts exactly
`{1}`; an omitted `num_controls` is inferred from `control_values` or
`control_qid_shape` when given, else defaults to `1`; an omitted
`control_qid_shape` defaults to a 2-level qudit per control. -/
theorem claim_C7_defaults :
    (∀ (sub : Gate) (ncArg : Option Nat) (shapeArg : Option (List Nat)) (g : Gate),
        sub.isControlled = false →
        controlledGateInit sub ncArg .omitted shapeArg = .ok g →
        g = .ControlledGate sub
          (.ProductOfSums (List.replicate (init_num_controls ncArg .omitted shapeArg) [1]))
          (init_control_qid_shape ncArg .omitted shapeArg)) ∧
    (∀ (sub : Gate) (cvArg : CVArg) (shapeArg : Option (List Nat)) (s : Gate) (v : ACV)
        (sh : List Nat),
        sub.isControlled = false →
        controlledGateInit sub none cvArg shapeArg = .ok (.ControlledGate s v sh) →
        sh.length =
          match cvArg, shapeArg with
          | .omitted, some l => l.length
          | .omitted, none => 1
          | .raw vs, _ => vs.length
          | .abstract v2, _ => v2.num_qubits) ∧
    (∀ (sub : Gate) (ncArg : Option Nat) (cvArg : CVArg) (s : Gate) (v : ACV)
        (sh : List Nat),
        sub.isControlled = false →
        controlledGateInit sub ncArg cvArg none = .ok (.ControlledGate s v sh) →
        sh = List.replicate (init_num_controls ncArg cvArg none) 2) := by
  refine ⟨?_, ?_, ?_⟩
  · intro sub ncArg shapeArg g hsub hok
    obtain ⟨-, -, -, -, -, hg⟩ := (controlledGateInit_ok_iff _ _ _ _ _).mp hok
    rcases sub with _ | _
    · exact hg
    · simp [Gate.isControlled] at hsub
  · intro sub cvArg shapeArg s v sh hsub hok
    obtain ⟨-, -, -, m4, -, hg⟩ := (controlledGateInit_ok_iff _ _ _ _ _).mp hok
    rcases sub with ⟨t, p⟩ | _
    · simp only [flatten_result, Gate.ControlledGate.injEq] at hg
      rw [hg.2.2, ← m4, init_num_controls_none]
    · simp [Gate.isControlled] at hsub
  · intro sub ncArg cvArg s v sh hsub hok
    obtain ⟨-, -, -, -, -, hg⟩ := (controlledGateInit_ok_iff _ _ _ _ _).mp hok
    rcases sub with ⟨t, p⟩ | _
    · simp only [flatten_result, Gate.ControlledGate.injEq] at hg
      exact hg.2.2
    · simp [Gate.isControlled] at hsub

theorem claim_C7_defaults_witness :
    Gate.ControlledGate unitary1_gate (.ProductOfSums [[1]]) [2] =
      .ControlledGate unitary1_gate
        (.ProductOfSums (List.replicate (init_num_controls none CVArg.omitted none) [1]))
        (init_control_qid_shape none CVArg.omitted none) :=
  (claim_C7_defaults).1 unitary1_gate none none _ (by decide) rfl


/-- C5: application to an empty qudit sequence always raises the
empty-application error; application to a non-empty sequence of exactly
`num_controls + num_qubits(sub_gate)` valid qudits succeeds, binding the
first `num_controls` qudits as controls and the rest to the sub-gate
with the gate's control values. -/
theorem claim_C5_on (sub : Gate) (cvs : ACV) (shape : List Nat) :
    (controlled_gate_on sub cvs shape [] =
      .error "Applied a gate to an empty set of qubits.") ∧
    (∀ qubits : List Qid, qubits ≠ [] →
      qubits.length = shape.length + (qid_shape sub).length →
      ((qubits.zip (shape ++ qid_shape sub)).all fun p => p.1.dimension == p.2) = true →
      controlled_gate_on sub cvs shape qubits =
        .ok ⟨qubits.take shape.length, (sub, qubits.drop shape.length), cvs⟩) := by
  constructor
  · rfl
  · intro qubits hne hlen hdim
    have hv : validate_args (.ControlledGate sub cvs shape) qubits = true := by
      simp only [validate_args, qid_shape, Bool.and_eq_true, beq_iff_eq]
      exact ⟨by rw [hlen, List.length_append], hdim⟩
    unfold controlled_gate_on
    rw [if_neg (fun h => hne (List.length_eq_zero.mp h)), if_neg (by simp [hv])]

theorem claim_C5_on_witness :
    controlled_gate_on unitary1_gate (.ProductOfSums [[1]]) [2] [⟨0, 2⟩, ⟨1, 2⟩] =
      .ok ⟨[⟨0, 2⟩], (unitary1_gate, [⟨1, 2⟩]), .ProductOfSums [[1]]⟩ := by
  have h := (claim_C5_on unitary1_gate (.ProductOfSums [[1]]) [2]).2
      [⟨0, 2⟩, ⟨1, 2⟩] (by decide) (by decide) (by decide)
  exact h

/-- C8: exponentiation delegates to the sub-gate: an unsupported
sub-gate exponentiation propagates as unsupported, otherwise the result
is the constructor re-run on the exponentiated sub-gate with the same
`num_controls`, `control_values` and `control_qid_shape`. -/
theorem claim_C8_pow_delegation (pow_sub : Gate → Int → Option Gate)
    (sub : Gate) (cvs : ACV) (shape : List Nat) (e : Int) :
    (controlled_gate_pow pow_sub sub cvs shape e = none ↔ pow_sub sub e = none) ∧
    (∀ ns, pow_sub sub e = some ns →
      controlled_gate_pow pow_sub sub cvs shape e =
        some (controlledGateInit ns (some shape.length) (.abstract cvs) (some shape))) := by
  unfold controlled_gate_pow
  cases h : pow_sub sub e <;> simp [h]

theorem claim_C8_pow_delegation_witness :
    controlled_gate_pow (fun _ _ => none) unitary1_gate (.ProductOfSums [[1]]) [2] 2 =
      none :=
  ((claim_C8_pow_delegation (fun _ _ => none) unitary1_gate (.ProductOfSums [[1]]) [2]
    2).1).mpr rfl

/-- C9: the serialization payload is exactly the three structural fields
`control_values`, `control_qid_shape`, `sub_gate`, and re-running
construction on that payload yields an entity equal to the original
(the hypotheses are the constructor's own invariants). -/
theorem claim_C9_json_roundtrip (s : Gate) (v : ACV) (sh : List Nat)
    (hs : s.isControlled = false)
    (hm : is_measurement s = false)
    (hmx : (!has_mixture s && !is_parameterized s) = false)
    (hnq : v.num_qubits = sh.length)
    (hval : v.validate sh = true)
    (hv : ∀ c, v ≠ ACV.SumOfProducts [c]) :
    _json_dict_ (.ControlledGate s v sh) = some (v, sh, s) ∧
    controlledGateInit s none (.abstract v) (some sh) = .ok (.ControlledGate s v sh) := by
  refine ⟨rfl, (controlledGateInit_ok_iff _ _ _ _ _).mpr ?_⟩
  have hcv : init_control_values none (.abstract v) (some sh) = v :=
    init_control_values_abstract none v (some sh) hv
  have hnc : init_num_controls none (.abstract v) (some sh) = v.num_qubits :=
    init_num_controls_abstract v (some sh) hv
  refine ⟨hm, hmx, ?_, ?_, ?_, ?_⟩
  · rw [hnc, hcv]
  · rw [hnc]; exact hnq
  · rw [hcv]; exact hval
  · rcases s with _ | _
    · rw [hcv]; rfl
    · simp [Gate.isControlled] at hs

theorem claim_C9_json_roundtrip_witness :
    _json_dict_ (.ControlledGate unitary1_gate (.ProductOfSums [[1]]) [2]) =
      some (.ProductOfSums [[1]], [2], unitary1_gate) ∧
    controlledGateInit unitary1_gate none (.abstract (.ProductOfSums [[1]])) (some [2]) =
      .ok (.ControlledGate unitary1_gate (.ProductOfSums [[1]]) [2]) :=
  claim_C9_json_roundtrip unitary1_gate (.ProductOfSums [[1]]) [2] (by decide) (by decide)
    (by decide) (by decide) (by decide) (fun c hc => ACV.noConfusion hc)

/-- C10: when the exponentiated (resp. resolved) sub-gate is not itself
a `ControlledGate`, `__pow__` (resp. `_resolve_parameters_`) changes
only the sub-gate, leaving `control_values`, `control_qid_shape` and
`num_controls` identical. -/
theorem claim_C10_frame (pow_sub : Gate → Int → Option Gate) (resolve_sub : Gate → Gate)
    (sub : Gate) (cvs : ACV) (shape : List Nat) (e : Int) :
    (∀ ns g, pow_sub sub e = some ns → ns.isControlled = false →
      (∀ c, cvs ≠ ACV.SumOfProducts [c]) →
      controlled_gate_pow pow_sub sub cvs shape e = some (.ok g) →
      g = .ControlledGate ns cvs shape) ∧
    (∀ g, (resolve_sub sub).isControlled = false →
      (∀ c, cvs ≠ ACV.SumOfProducts [c]) →
      controlled_gate_resolve resolve_sub sub cvs shape = .ok g →
      g = .ControlledGate (resolve_sub sub) cvs shape) := by
  have key : ∀ ns g, ns.isControlled = false → (∀ c, cvs ≠ ACV.SumOfProducts [c]) →
      controlledGateInit ns (some shape.length) (.abstract cvs) (some shape) = .ok g →
      g = .ControlledGate ns cvs shape := by
    intro ns g hns hcv hok
    obtain ⟨-, -, -, -, -, hg⟩ := (controlledGateInit_ok_iff _ _ _ _ _).mp hok
    rw [hg, init_control_values_abstract _ _ _ hcv]
    rcases ns with _ | _
    · rfl
    · simp [Gate.isControlled] at hns
  constructor
  · intro ns g hps hns hcv hok
    unfold controlled_gate_pow at hok
    rw [hps] at hok
    exact key ns g hns hcv (Option.some.inj hok)
  · intro g hns hcv hok
    exact key (resolve_sub sub) g hns hcv hok

theorem claim_C10_frame_witness :
    Gate.ControlledGate phase_gate (.ProductOfSums [[1]]) [2] =
      .ControlledGate phase_gate (.ProductOfSums [[1]]) [2] :=
  (claim_C10_frame (fun _ _ => some phase_gate) id unitary1_gate (.ProductOfSums [[1]])
      [2] 1).1 phase_gate _ rfl (by decide) (fun c hc => ACV.noConfusion hc) rfl


theorem case2_ops_mem (sums : List (List Nat)) (qubits : List Qid) (nc uTag : Nat)
    (op : Operation) (h : op ∈ case2_ops sums qubits nc uTag) :
    (∃ q, op = .X q) ∨ ∃ c t, op = .MCR uTag c t := by
  unfold case2_ops at h
  simp only [List.append_assoc, List.mem_append, List.mem_filterMap, List.mem_cons,
    List.not_mem_nil, or_false] at h
  have hxcase : ∀ p : List Nat × Qid,
      (if p.1.toFinset = ({0} : Finset Nat) then some (Operation.X p.2) else none) =
        some op → op = Operation.X p.2 := by
    intro p hp
    by_cases hc : p.1.toFinset = ({0} : Finset Nat)
    · rw [if_pos hc] at hp
      exact (Option.some.inj hp).symm
    · rw [if_neg hc] at hp
      exact Option.noConfusion hp
  rcases h with ⟨p, -, hp⟩ | h | ⟨p, -, hp⟩
  · exact Or.inl ⟨p.2, hxcase p hp⟩
  · exact Or.inr ⟨_, _, h⟩
  · exact Or.inl ⟨p.2, hxcase p hp⟩

/-- C6: branch 1 of the decomposition engine emits the sub-gate's
specialized controlled form only when it is structurally different from
the current entity; in every case the engine never emits an application
of the current entity itself, so re-wrapping and re-decomposing cannot
recurse infinitely. -/
theorem claim_C6_branch1_guard (controlled_oracle : Gate → Nat → ACV → List Nat → Gate)
    (sub_decompose : Gate → List Qid → Option (List Operation)) (angle : ℚ) (uTag : Nat)
    (sub : Gate) (cvs : ACV) (shape : List Nat) (qubits : List Qid) :
    (controlled_oracle sub shape.length cvs shape ≠ .ControlledGate sub cvs shape →
      _decompose_with_context_ controlled_oracle sub_decompose angle uTag sub cvs shape
          qubits =
        some [.GateOp (controlled_oracle sub shape.length cvs shape) qubits]) ∧
    (∀ ops qs2,
      _decompose_with_context_ controlled_oracle sub_decompose angle uTag sub cvs shape
          qubits = some ops →
      Operation.GateOp (.ControlledGate sub cvs shape) qs2 ∉ ops) := by
  constructor
  · intro hne
    unfold _decompose_with_context_
    rw [if_pos (Ne.symm hne)]
  · intro ops qs2 hres hmem
    unfold _decompose_with_context_ at hres
    by_cases hne : Gate.ControlledGate sub cvs shape ≠
        controlled_oracle sub shape.length cvs shape
    · rw [if_pos hne] at hres
      obtain rfl := Option.some.inj hres
      simp only [List.mem_cons, List.not_mem_nil, or_false] at hmem
      injection hmem with hg hq
      exact hne hg
    · rw [if_neg hne] at hres
      cases hsd : sub_decompose sub (qubits.drop shape.length) with
      | some l =>
        rw [hsd] at hres
        obtain rfl := Option.some.inj hres
        simp only [List.mem_map] at hmem
        obtain ⟨op2, -, heq⟩ := hmem
        exact Operation.noConfusion heq
      | none =>
        rw [hsd] at hres
        split_ifs at hres
        · obtain rfl := Option.some.inj hres
          simp at hmem
        · rcases cvs with sums | conjs
          · obtain rfl := Option.some.inj hres
            rcases case2_ops_mem sums qubits shape.length uTag _ hmem with ⟨q, hq⟩ |
              ⟨c, t, hq⟩ <;> exact Operation.noConfusion hq
          · exact Option.noConfusion hres

theorem claim_C6_branch1_guard_witness :
    _decompose_with_context_ (fun _ _ _ _ => phase_gate) (fun _ _ => none) 0 0
        unitary1_gate (.ProductOfSums [[1]]) [2] [⟨0, 2⟩, ⟨1, 2⟩] =
      some [.GateOp phase_gate [⟨0, 2⟩, ⟨1, 2⟩]] :=
  (claim_C6_branch1_guard (fun _ _ _ _ => phase_gate) (fun _ _ => none) 0 0 unitary1_gate
      (.ProductOfSums [[1]]) [2] [⟨0, 2⟩, ⟨1, 2⟩]).1 (by decide)

/-- C4: when the sub-gate is a 0-qubit unitary of angle θ and all
qudits are 2-level (and the earlier branches do not fire), decomposition
yields a single diagonal gate over all control qubits whose angle vector
has θ at exactly the flattened indices enumerated by
`control_values.expand()` and 0 elsewhere; with one control accepting
`{1}` the angle list is `[0, θ]`. -/
theorem claim_C4_global_phase (controlled_oracle : Gate → Nat → ACV → List Nat → Gate)
    (sub_decompose : Gate → List Qid → Option (List Operation)) (θ : ℚ) (uTag : Nat)
    (sub : Gate) (cvs : ACV) (shape : List Nat) (qubits : List Qid)
    (hbr1 : controlled_oracle sub shape.length cvs shape = .ControlledGate sub cvs shape)
    (hbr2 : sub_decompose sub (qubits.drop shape.length) = none)
    (hu : has_unitary sub = true)
    (h2 : (qubits.all fun q => q.dimension == 2) = true)
    (h0 : qid_shape sub = []) :
    (_decompose_with_context_ controlled_oracle sub_decompose θ uTag sub cvs shape qubits =
      some [.DiagonalGateOp (diag_angles shape cvs.expand θ) qubits]) ∧
    (∀ j : Nat,
      (diag_angles shape cvs.expand θ)[j]? =
        if j < shape.foldl (· * ·) 1 then
          some (if ∃ hot ∈ cvs.expand, flat_index shape hot = j then θ else 0)
        else none) ∧
    diag_angles [2] (ACV.expand (.ProductOfSums [[1]])) θ = [0, θ] := by
  refine ⟨?_, ?_, rfl⟩
  · unfold _decompose_with_context_
    rw [if_neg (not_not_intro hbr1.symm), hbr2]
    simp [hu, h2, h0]
  · intro j
    unfold diag_angles
    rw [List.getElem?_map]
    by_cases hj : j < shape.foldl (· * ·) 1
    · rw [if_pos hj]
      have : (List.range (shape.foldl (· * ·) 1))[j]? = some j :=
        List.getElem?_range hj
      rw [this]
      simp only [Option.map_some']
      congr 1
      refine if_congr ?_ rfl rfl
      rw [List.any_eq_true]
      exact exists_congr fun hot => and_congr_right fun _ => by simp
    · rw [if_neg hj]
      have : (List.range (shape.foldl (· * ·) 1))[j]? = none := by
        rw [List.getElem?_eq_none]
        simpa [List.length_range] using Nat.le_of_not_lt hj
      rw [this]
      rfl

theorem claim_C4_global_phase_witness :
    _decompose_with_context_ (fun s _ v sh => .ControlledGate s v sh) (fun _ _ => none) 1 0
        phase_gate (.ProductOfSums [[1]]) [2] [⟨0, 2⟩] =
      some [.DiagonalGateOp [0, 1] [⟨0, 2⟩]] := by
  have h := claim_C4_global_phase (fun s _ v sh => .ControlledGate s v sh) (fun _ _ => none)
      1 0 phase_gate (.ProductOfSums [[1]]) [2] [⟨0, 2⟩] rfl rfl rfl (by decide) rfl
  rw [h.1]
  rfl


theorem case2_foldl_cons (ps : List (List Nat × Qid)) (q : Qid) (acc : List Qid)
    (hq : ∀ p ∈ ps, p.2 ≠ q) :
    ps.foldl (fun cq p => if p.1.toFinset = ({0} : Finset Nat) then cq
        else if p.1.toFinset = ({0, 1} : Finset Nat) then cq.erase p.2 else cq) (q :: acc) =
      q :: ps.foldl (fun cq p => if p.1.toFinset = ({0} : Finset Nat) then cq
        else if p.1.toFinset = ({0, 1} : Finset Nat) then cq.erase p.2 else cq) acc := by
  induction ps generalizing acc with
  | nil => rfl
  | cons p ps ih =>
    have hp : p.2 ≠ q := hq p (List.mem_cons_self p ps)
    have hrest : ∀ r ∈ ps, r.2 ≠ q := fun r hr => hq r (List.mem_cons_of_mem p hr)
    simp only [List.foldl_cons]
    by_cases hc0 : p.1.toFinset = ({0} : Finset Nat)
    · rw [if_pos hc0, if_pos hc0]
      exact ih acc hrest
    · by_cases hc01 : p.1.toFinset = ({0, 1} : Finset Nat)
      · rw [if_neg hc0, if_neg hc0, if_pos hc01, if_pos hc01,
          List.erase_cons_tail (by simpa using Ne.symm hp)]
        exact ih (acc.erase p.2) hrest
      · rw [if_neg hc0, if_neg hc0, if_neg hc01, if_neg hc01]
        exact ih acc hrest

theorem case2_control_qubits_eq (sums : List (List Nat)) (l : List Qid)
    (hnd : l.Nodup) (hlen : sums.length = l.length) :
    (sums.zip l).foldl (fun cq p => if p.1.toFinset = ({0} : Finset Nat) then cq
        else if p.1.toFinset = ({0, 1} : Finset Nat) then cq.erase p.2 else cq) l =
      case2_control_qubits sums l := by
  unfold case2_control_qubits
  induction sums generalizing l with
  | nil =>
    rcases l with _ | ⟨q, l2⟩
    · rfl
    · simp at hlen
  | cons c cs ih =>
    rcases l with _ | ⟨q, l2⟩
    · simp at hlen
    · have hnd2 := List.nodup_cons.mp hnd
      have hlen2 : cs.length = l2.length := by simpa using hlen
      have hnotmem : ∀ p ∈ cs.zip l2, p.2 ≠ q := by
        intro p hp hpq
        exact hnd2.1 (hpq ▸ (List.of_mem_zip hp).2)
      rw [List.zip_cons_cons, List.foldl_cons]
      by_cases hc0 : c.toFinset = ({0} : Finset Nat)
      · have hne01 : ¬((c, q).1.toFinset = ({0, 1} : Finset Nat)) := by
          simp only [hc0]; decide
        rw [if_pos hc0, case2_foldl_cons _ q l2 hnotmem, ih l2 hnd2.2 hlen2,
          List.filterMap_cons]
        simp only [if_neg hne01]
      · by_cases hc01 : c.toFinset = ({0, 1} : Finset Nat)
        · rw [if_neg hc0, if_pos hc01, List.erase_cons_head, ih l2 hnd2.2 hlen2,
            List.filterMap_cons]
          simp only [if_pos hc01]
        · rw [if_neg hc0, if_neg hc01, case2_foldl_cons _ q l2 hnotmem,
            ih l2 hnd2.2 hlen2, List.filterMap_cons]
          simp only [if_neg hc01]

theorem zip_snd_inj (cs : List (List Nat)) (l : List Qid) (hnd : l.Nodup)
    (p p2 : List Nat × Qid) (hp : p ∈ cs.zip l) (hp2 : p2 ∈ cs.zip l)
    (hsnd : p.2 = p2.2) : p = p2 := by
  induction cs generalizing l with
  | nil => simp at hp
  | cons c cs ih =>
    rcases l with _ | ⟨q, l2⟩
    · simp at hp
    · rw [List.zip_cons_cons] at hp hp2
      have hnd2 := List.nodup_cons.mp hnd
      rcases List.mem_cons.mp hp with rfl | hp3
      · rcases List.mem_cons.mp hp2 with rfl | hp4
        · rfl
        · have hmem2 : p2.2 ∈ l2 := (List.of_mem_zip hp4).2
          rw [← hsnd] at hmem2
          exact absurd hmem2 hnd2.1
      · rcases List.mem_cons.mp hp2 with rfl | hp4
        · have hmem2 : p.2 ∈ l2 := (List.of_mem_zip hp3).2
          rw [hsnd] at hmem2
          exact absurd hmem2 hnd2.1
        · exact ih l2 hnd2.2 hp3 hp4

/-- C2 counterexample: for a single 2-level control qubit whose accepted
set is exactly `{0}`, the emitted sequence is an `X` sandwich around the
synthesis-primitive call, and that call receives the `{0}`-qubit as a
direct control input (the claim says it never does). -/
theorem claim_C2_counterexample :
    _decompose_with_context_ (fun s _ v sh => .ControlledGate s v sh) (fun _ _ => none) 0 7
        unitary1_gate (.ProductOfSums [[0]]) [2] [⟨0, 2⟩, ⟨1, 2⟩] =
      some [.X ⟨0, 2⟩, .MCR 7 [⟨0, 2⟩] ⟨1, 2⟩, .X ⟨0, 2⟩] ∧
    (⟨0, 2⟩ : Qid) ∈ [Qid.mk 0 2] := by
  exact ⟨by decide, by decide⟩

/-- C2 amended: in the matrix-level branch for a single-qubit unitary
with a Product-of-Sums condition over 2-level qudits, every `{0}`
control gets an `X` before and after the synthesized core (undone
afterward) and stays in the control list passed to the synthesis
primitive (the flips convert it to a control on 1); every full-domain
`{0, 1}` control is dropped from that list and contributes no flip; only
`{0}` controls contribute flips; the result is
flips ++ synthesized ++ flips. -/
theorem claim_C2_amended (sums : List (List Nat)) (qubits : List Qid) (nc uTag : Nat)
    (hnd : (qubits.take nc).Nodup) (hlen : sums.length = (qubits.take nc).length) :
    (case2_ops sums qubits nc uTag =
      case2_invert_ops sums (qubits.take nc) ++
        [Operation.MCR uTag (case2_control_qubits sums (qubits.take nc))
          (qubits.getLastD ⟨0, 0⟩)] ++
        case2_invert_ops sums (qubits.take nc)) ∧
    ∀ p ∈ sums.zip (qubits.take nc),
      (p.1.toFinset = ({0} : Finset Nat) →
        Operation.X p.2 ∈ case2_invert_ops sums (qubits.take nc) ∧
        p.2 ∈ case2_control_qubits sums (qubits.take nc)) ∧
      (p.1.toFinset = ({0, 1} : Finset Nat) →
        p.2 ∉ case2_control_qubits sums (qubits.take nc) ∧
        Operation.X p.2 ∉ case2_invert_ops sums (qubits.take nc)) ∧
      (p.1.toFinset ≠ ({0} : Finset Nat) →
        Operation.X p.2 ∉ case2_invert_ops sums (qubits.take nc)) := by
  constructor
  · simp only [case2_ops]
    rw [case2_control_qubits_eq sums (qubits.take nc) hnd hlen]
    rfl
  · intro p hp
    refine ⟨?_, ?_, ?_⟩
    · intro hc0
      constructor
      · exact List.mem_filterMap.mpr ⟨p, hp, by rw [if_pos hc0]⟩
      · exact List.mem_filterMap.mpr ⟨p, hp, by
          rw [if_neg (by simp only [hc0]; decide)]⟩
    · intro hc01
      constructor
      · intro hmem
        obtain ⟨p2, hp2, hf⟩ := List.mem_filterMap.mp hmem
        by_cases hc : p2.1.toFinset = ({0, 1} : Finset Nat)
        · rw [if_pos hc] at hf
          exact Option.noConfusion hf
        · rw [if_neg hc] at hf
          rw [zip_snd_inj sums (qubits.take nc) hnd p2 p hp2 hp
            (Option.some.inj hf)] at hc
          exact hc hc01
      · intro hmem
        obtain ⟨p2, hp2, hf⟩ := List.mem_filterMap.mp hmem
        by_cases hc : p2.1.toFinset = ({0} : Finset Nat)
        · rw [if_pos hc] at hf
          have hq : p2.2 = p.2 := Operation.X.inj (Option.some.inj hf)
          rw [zip_snd_inj sums (qubits.take nc) hnd p2 p hp2 hp hq, hc01] at hc
          exact absurd hc (by decide)
        · rw [if_neg hc] at hf
          exact Option.noConfusion hf
    · intro hne0 hmem
      obtain ⟨p2, hp2, hf⟩ := List.mem_filterMap.mp hmem
      by_cases hc : p2.1.toFinset = ({0} : Finset Nat)
      · rw [if_pos hc] at hf
        have hq : p2.2 = p.2 := Operation.X.inj (Option.some.inj hf)
        rw [zip_snd_inj sums (qubits.take nc) hnd p2 p hp2 hp hq] at hc
        exact hne0 hc
      · rw [if_neg hc] at hf
        exact Option.noConfusion hf

theorem claim_C2_amended_witness :
    case2_ops [[0], [1]] [⟨0, 2⟩, ⟨1, 2⟩, ⟨2, 2⟩] 2 7 =
      case2_invert_ops [[0], [1]] ([⟨0, 2⟩, ⟨1, 2⟩, ⟨2, 2⟩].take 2) ++
        [Operation.MCR 7 (case2_control_qubits [[0], [1]] ([⟨0, 2⟩, ⟨1, 2⟩, ⟨2, 2⟩].take 2))
          ([⟨0, 2⟩, ⟨1, 2⟩, ⟨2, 2⟩].getLastD ⟨0, 0⟩)] ++
        case2_invert_ops [[0], [1]] ([⟨0, 2⟩, ⟨1, 2⟩, ⟨2, 2⟩].take 2) :=
  (claim_C2_amended [[0], [1]] [⟨0, 2⟩, ⟨1, 2⟩, ⟨2, 2⟩] 2 7 (by decide) (by decide)).1


theorem claim_C3_validation_errors_witness :
    ∃ e, controlledGateInit unitary1_gate (some 3) (.raw [[1], [1]]) none = .error e :=
  (claim_C3_validation_errors unitary1_gate (some 3) (.raw [[1], [1]]) none).mpr
    (Or.inr (Or.inr (Or.inl (by decide))))

end CirqControlled
